import Mathlib

/-!
Shallow embedding of src/BZsearch.py (a bilibili up-watch chat plugin):
the subscription store UpWatchStorage with its legacy-format migration,
the TTL search cache of get_bilibili_search together with the
clear_cache sweep, the watch/unwatch command handlers, and the
per-subscription reconciliation step of check_up_updates.

Modelling conventions: Python dicts are insertion-ordered association
lists with unique keys (dictGet / dictSet / dictDel below); str.strip
and str.lower are pyStrip and pyLower; timestamps and datetime values
are Int (datetime.fromtimestamp is monotone, so comparisons of the
resulting datetimes are comparisons of the raw integers); network calls
appear as explicit environment parameters (the search results, the
space-API results and the get_video_info oracle of one tick).
-/

namespace BZ

/-- Python str.strip of both ends of a string, dropping whitespace. -/
def pyStrip (s : String) : String :=
  (((s.toList.dropWhile Char.isWhitespace).reverse.dropWhile
      Char.isWhitespace).reverse).asString

/-- Python str.lower, as ASCII case folding via Char.toLower. -/
def pyLower (s : String) : String :=
  (s.toList.map Char.toLower).asString

/-- normalize_name (BZsearch.py line 149): strip then lower. -/
def normalize_name (name : String) : String := pyLower (pyStrip name)

/-- Python str.isdigit: nonempty and every character a digit. -/
def strIsDigit (s : String) : Bool := !s.isEmpty && s.toList.all Char.isDigit

/-- Python s[-4:]: the last four characters (the whole string when shorter). -/
def lastFour (s : String) : String :=
  ((s.toList).drop (s.toList.length - 4)).asString

/-- Lookup in a Python-dict model: first entry with the given key. -/
def dictGet {α β : Type} [DecidableEq α] : List (α × β) → α → Option β
  | [], _ => none
  | (k', v) :: rest, k => if k' = k then some v else dictGet rest k

/-- Assignment d[k] = v in a Python-dict model: overwrite in place when
the key is present, append otherwise (Python dicts keep insertion order
and keep the original position on overwrite). -/
def dictSet {α β : Type} [DecidableEq α] : List (α × β) → α → β → List (α × β)
  | [], k, v => [(k, v)]
  | (k', v') :: rest, k, v =>
    if k' = k then (k, v) :: rest else (k', v') :: dictSet rest k v

/-- Deletion del d[k] in a Python-dict model: remove the first entry
with the given key (the only one, keys being unique). -/
def dictDel {α β : Type} [DecidableEq α] : List (α × β) → α → List (α × β)
  | [], _ => []
  | (k', v) :: rest, k => if k' = k then rest else (k', v) :: dictDel rest k

/-- concatMap, used to state flattened characterizations of folds. -/
def concatMap {α β : Type} (f : α → List β) : List α → List β
  | [] => []
  | a :: rest => f a ++ concatMap f rest

/-- One video record as the bilibili search / space APIs return it:
bvid, title, author display name, mid (author id), pubdate (unix
timestamp), pic. hasAuthor records whether the raw JSON object carried
an author field at all (get_bilibili_search filters on that for the
"up" kind, line 257). -/
structure Video where
  bvid : String
  title : String
  author : String
  mid : Nat
  pubdate : Int
  pic : String
  hasAuthor : Bool
deriving Repr, DecidableEq

/-- Stored watch state of one up for one group: last_check (ISO
timestamp of the last reconciliation touch, modelled as Int) and
last_vid (bvid recorded last; none models JSON null). -/
structure WatchInfo where
  last_check : Int
  last_vid : Option String
deriving Repr, DecidableEq

/-- UpWatchStorage state: _data maps group id to a dict from up name to
WatchInfo, and name_index maps lowercased up name to (group id, exact
stored name). -/
structure Storage where
  data : List (String × List (String × WatchInfo))
  name_index : List (String × (String × String))
deriving Repr, DecidableEq

/-- UpWatchStorage.add_watch (lines 97-109): unconditionally store the
record under (group, up_name) and point name_index[up_name.lower()] at
it; save() then persists. now is datetime.now(). -/
def add_watch (st : Storage) (group_id up_name : String)
    (last_vid : Option String) (now : Int) : Storage :=
  let ups := (dictGet st.data group_id).getD []
  { data := dictSet st.data group_id (dictSet ups up_name ⟨now, last_vid⟩),
    name_index := dictSet st.name_index (pyLower up_name) (group_id, up_name) }

/-- UpWatchStorage.remove_watch (lines 111-123): delete the record when
(group, up_name) is stored, drop the group dict when it became empty,
drop the name_index entry for up_name.lower(), save, return True;
otherwise return False with the store untouched. -/
def remove_watch (st : Storage) (group_id up_name : String) : Bool × Storage :=
  match dictGet st.data group_id with
  | none => (false, st)
  | some ups =>
    match dictGet ups up_name with
    | none => (false, st)
    | some _ =>
      let ups2 := dictDel ups up_name
      let data2 := if ups2.isEmpty then dictDel st.data group_id
                   else dictSet st.data group_id ups2
      (true, { data := data2,
               name_index := dictDel st.name_index (pyLower up_name) })

/-- UpWatchStorage.update_last_video (lines 132-140): when the record
still exists, overwrite it with the new last_vid and last_check = now
and save; otherwise do nothing. -/
def update_last_video (st : Storage) (group_id up_name : String)
    (last_vid : String) (now : Int) : Storage :=
  match dictGet st.data group_id with
  | none => st
  | some ups =>
    match dictGet ups up_name with
    | none => st
    | some _ =>
      { st with
        data := dictSet st.data group_id (dictSet ups up_name ⟨now, some last_vid⟩) }

/-- UpWatchStorage.find_up_by_name (lines 142-144): case-insensitive
lookup through the global name index. -/
def find_up_by_name (st : Storage) (name : String) : Option (String × String) :=
  dictGet st.name_index (normalize_name name)

/-- UpWatchStorage.get_group_watches (lines 125-127), value level:
the group's dict, or empty for an unknown group. The aliasing of the
returned object is modelled separately by the heap model below. -/
def get_group_watches (st : Storage) (group_id : String) :
    List (String × WatchInfo) :=
  (dictGet st.data group_id).getD []

/-- UpWatchStorage.get_all_watches (lines 129-130), value level. -/
def get_all_watches (st : Storage) :
    List (String × List (String × WatchInfo)) := st.data

/-- One record of the legacy on-disk layout (and, with up_name = none,
of the current layout): the raw JSON object under a group's record key.
up_name = none models an absent up_name field, whose access raises the
KeyError that _migrate_from_old_format catches per record. -/
structure OldInfo where
  up_name : Option String
  last_check : Int
  last_vid : Option String
deriving Repr, DecidableEq

/-- Parsed content of the bili_watch.json file: group id mapped to a
dict from record key (legacy uid or current up name) to raw record. -/
abbrev DiskFile := List (String × List (String × OldInfo))

/-- Old-format detection of _load_and_migrate (lines 44-47): some
record key of some group is purely numeric. -/
def is_old_format (file : DiskFile) : Bool :=
  file.any (fun g => g.2.any (fun r => strIsDigit r.1))

/-- Inner loop of _migrate_from_old_format (lines 69-84) over one
group's records, threading the group dict being built and the global
name index: read info.up_name (skip the record when the field is
missing, the KeyError branch), append _uid[-4:] when the lowered name
is already indexed, store, index. -/
def migrateGroup (group_id : String) :
    List (String × OldInfo) → List (String × WatchInfo) →
    List (String × (String × String)) →
    List (String × WatchInfo) × List (String × (String × String))
  | [], gacc, idx => (gacc, idx)
  | (uid, info) :: rest, gacc, idx =>
    match info.up_name with
    | none => migrateGroup group_id rest gacc idx
    | some name0 =>
      let name := if (dictGet idx (pyLower name0)).isSome
                  then name0 ++ "_" ++ lastFour uid else name0
      migrateGroup group_id rest
        (dictSet gacc name ⟨info.last_check, info.last_vid⟩)
        (dictSet idx (pyLower name) (group_id, name))

/-- Outer loop of _migrate_from_old_format (lines 66-87): build every
group's dict (self._data[group_id] starts empty) while threading the
name index; save() then persists the result at once. -/
def migrateGroups :
    DiskFile → List (String × List (String × WatchInfo)) →
    List (String × (String × String)) → Storage
  | [], dacc, idx => ⟨dacc, idx⟩
  | (gid, ups) :: rest, dacc, idx =>
    let p := migrateGroup gid ups [] idx
    migrateGroups rest (dictSet dacc gid p.1) p.2

/-- Index rebuild of the new-format branch of _load_and_migrate, inner
loop (lines 55-57): name_index[up_name.lower()] = (group_id, up_name)
for one group's record keys. -/
def rebuildGroupIndex (group_id : String) :
    List (String × OldInfo) → List (String × (String × String)) →
    List (String × (String × String))
  | [], idx => idx
  | (k, _) :: rest, idx =>
    rebuildGroupIndex group_id rest (dictSet idx (pyLower k) (group_id, k))

/-- Index rebuild of the new-format branch, outer loop over groups. -/
def rebuildIndex : DiskFile → List (String × (String × String)) →
    List (String × (String × String))
  | [], idx => idx
  | (gid, ups) :: rest, idx => rebuildIndex rest (rebuildGroupIndex gid ups idx)

/-- New-format load self._data = old_data: raw records read as watch
records (only last_check and last_vid are ever consumed). -/
def fileToData (file : DiskFile) : List (String × List (String × WatchInfo)) :=
  file.map (fun g => (g.1, g.2.map (fun r => (r.1, ⟨r.2.last_check, r.2.last_vid⟩))))

/-- _load_and_migrate (lines 35-62) on an existing, parseable file:
migrate when a numeric record key is present, otherwise adopt the data
and rebuild the name index. -/
def load_and_migrate (file : DiskFile) : Storage :=
  if is_old_format file then migrateGroups file [] []
  else { data := fileToData file, name_index := rebuildIndex file [] }

/-- save (lines 89-95) as the on-disk image of a store: the serialized
new-format records carry no up_name field. -/
def storeToFile (st : Storage) : DiskFile :=
  st.data.map (fun g =>
    (g.1, g.2.map (fun r => (r.1, ⟨none, r.2.last_check, r.2.last_vid⟩))))

/-- Record count of a parsed file (the log line at line 41). -/
def fileCount (file : DiskFile) : Nat :=
  (file.map (fun g => g.2.length)).sum

/-- Record count of a store's data. -/
def storeCount (d : List (String × List (String × WatchInfo))) : Nat :=
  (d.map (fun g => g.2.length)).sum

def MAX_RESULTS : Nat := 5

/-- CACHE_EXPIRE_MINUTES = 3, in the seconds in which the model
measures time. -/
def CACHE_EXPIRE_SECONDS : Int := 180

/-- search_cache: cache key mapped to (cached results, insertion time). -/
structure CacheState where
  entries : List (String × (List Video × Int))
deriving Repr, DecidableEq

/-- Cache key of get_bilibili_search (line 218). -/
def cache_key (search_type keyword : String) : String :=
  search_type ++ ":" ++ normalize_name keyword

/-- get_bilibili_search (lines 217-262). directory is what the HTTP
search would deliver at this moment (none models timeout / non-200 /
error code, in which case [] is returned and nothing is cached).
Returns (results, whether the HTTP search was performed, new cache):
a cache hit younger than the TTL short-circuits, anything else does
the HTTP search, truncates to MAX_RESULTS, keeps only author-carrying
records for the "up" kind, and stores the list with the current time. -/
def get_bilibili_search (cache : CacheState) (directory : Option (List Video))
    (keyword search_type : String) (now : Int) :
    List Video × Bool × CacheState :=
  let key := cache_key search_type keyword
  let fresh : List Video × Bool × CacheState :=
    match directory with
    | none => ([], true, cache)
    | some raw =>
      let results := raw.take MAX_RESULTS
      let results := if search_type = "up"
                     then results.filter (fun v => v.hasAuthor) else results
      (results, true, { entries := dictSet cache.entries key (results, now) })
  match dictGet cache.entries key with
  | some (data, t) =>
    if now - t < CACHE_EXPIRE_SECONDS then (data.take MAX_RESULTS, false, cache)
    else fresh
  | none => fresh

/-- clear_cache sweep (lines 593-600): drop every entry strictly older
than the TTL. -/
def clear_cache (cache : CacheState) (now : Int) : CacheState :=
  { entries := cache.entries.filter
      (fun e => !(now - e.2.2 > CACHE_EXPIRE_SECONDS)) }

/-- Result of get_up_info_by_name: mid and exact name of the up whose
uname matches the query exactly after normalization. -/
structure UpInfo where
  mid : String
  name : String
deriving Repr, DecidableEq

/-- Outcome of the 关注up handler watch_bilibili_up. -/
inductive AddResult where
  | emptyInput
  | alreadyWatching
  | upNotFound
  | noVideos
  | added (name bvid : String)
deriving Repr, DecidableEq

/-- watch_bilibili_up (lines 302-339): strip the input, prompt when
empty, reject when find_up_by_name already resolves, resolve the up
via the search API (upInfo = get_up_info_by_name result), fetch its
space videos, reject when either fails or the up has no videos, else
add_watch under the RESOLVED name with the newest bvid. The group id is
ev.group_id; str(group_id) is the storage key. -/
def watch_bilibili_up (st : Storage) (group_id : Nat) (raw_name : String)
    (upInfo : Option UpInfo) (videos : List Video) (now : Int) :
    AddResult × Storage :=
  let up_name := pyStrip raw_name
  if up_name.isEmpty then (.emptyInput, st)
  else if (find_up_by_name st up_name).isSome then (.alreadyWatching, st)
  else
    match upInfo with
    | none => (.upNotFound, st)
    | some ui =>
      match videos with
      | [] => (.noVideos, st)
      | v :: _ =>
        (.added ui.name v.bvid,
         add_watch st (toString group_id) ui.name (some v.bvid) now)

/-- Outcome of the 取关up handler unwatch_bilibili_up. -/
inductive RemoveResult where
  | notWatching
  | removed (name : String)
  | removeFailed
deriving Repr, DecidableEq

/-- unwatch_bilibili_up (lines 390-405): strip the input, resolve it
through the global name index, fail with the not-watching reply when
it does not resolve, otherwise remove the resolved (group, exact name)
record. The CALLER group id is never consulted: the group comes from
the name index entry. -/
def unwatch_bilibili_up (st : Storage) (_caller_group : Nat)
    (raw_name : String) : RemoveResult × Storage :=
  let up_name := pyStrip raw_name
  match find_up_by_name st up_name with
  | none => (.notWatching, st)
  | some (gid, exact) =>
    match remove_watch st gid exact with
    | (true, st2) => (.removed exact, st2)
    | (false, st2) => (.removeFailed, st2)

/-- Environment of one per-subscription step of check_up_updates:
searchResults = get_bilibili_search(up_name, "up"); upInfo and
spaceVideos = the space-API fallback (get_up_info_by_name and
get_up_videos of its mid); videoInfo = the get_video_info oracle;
now = datetime.now() of this step. -/
structure TickEnv where
  searchResults : List Video
  upInfo : Option UpInfo
  spaceVideos : List Video
  videoInfo : String → Option Video
  now : Int

/-- Terminal state of one subscription within one tick: skipped
(continue: no attributable video was found), notify (a group message
is sent), or noChange (no message). -/
inductive TickOutcome where
  | skipped
  | notify (v : Video)
  | noChange (v : Video)
deriving Repr, DecidableEq

/-- Attribution filter of the search path (lines 456-461): the first
search result whose normalized author equals the normalized up name. -/
def selectLatest (up_name : String) (results : List Video) : Option Video :=
  results.find? (fun v => normalize_name v.author == normalize_name up_name)

/-- check_up_updates, one subscription (lines 437-508): fetch the
latest video (search path with the author attribution filter, else the
space fallback), skip when none is found; decide is_new (true when
last_vid is null or empty, true when get_video_info of last_vid fails,
else a strict pubdate comparison against the stored video); ALWAYS
update the stored record to the found bvid and the current time
(lines 483-488, "无论是否有更新"); notify exactly when is_new. The
last_check value is parsed by the code (line 440) but never used in
the decision. -/
def check_one_sub (env : TickEnv) (st : Storage) (group_id up_name : String) :
    TickOutcome × Storage :=
  match dictGet st.data group_id with
  | none => (.skipped, st)
  | some ups =>
    match dictGet ups up_name with
    | none => (.skipped, st)
    | some info =>
      let latest? : Option Video :=
        if env.searchResults.isEmpty then
          match env.upInfo with
          | none => none
          | some _ =>
            match env.spaceVideos with
            | [] => none
            | v :: _ => some v
        else selectLatest up_name env.searchResults
      match latest? with
      | none => (.skipped, st)
      | some latest =>
        let is_new : Bool :=
          match info.last_vid with
          | none => true
          | some lv =>
            if lv.isEmpty then true
            else
              match env.videoInfo lv with
              | none => true
              | some lvi => decide (lvi.pubdate < latest.pubdate)
        let st2 := update_last_video st group_id up_name latest.bvid env.now
        (if is_new then .notify latest else .noChange latest, st2)

/-- Heap model of the Python object graph, for the aliasing behaviour
of get_group_watches: self._data maps each group id to the ADDRESS of
its per-group dict object, and the heap maps addresses to dict
contents. -/
structure StoreHeap where
  groups : List (String × Nat)
  heap : List (Nat × List (String × WatchInfo))
  nextAddr : Nat
deriving Repr, DecidableEq

/-- Contents of the dict object at an address. -/
def heapRead (sh : StoreHeap) (a : Nat) : List (String × WatchInfo) :=
  (dictGet sh.heap a).getD []

/-- get_group_watches (lines 125-127) under the heap model: return
self._data.get(group_id, \x7b\x7d) — for a present group the stored inner
dict OBJECT itself, for an absent group a fresh empty dict. -/
def hm_get_group_watches (sh : StoreHeap) (group_id : String) :
    Nat × StoreHeap :=
  match dictGet sh.groups group_id with
  | some a => (a, sh)
  | none => (sh.nextAddr,
             { sh with heap := dictSet sh.heap sh.nextAddr [],
                       nextAddr := sh.nextAddr + 1 })

/-- A caller-side mutation d[k] = v of a dict the caller received. -/
def hm_mutate (sh : StoreHeap) (a : Nat) (k : String) (v : WatchInfo) :
    StoreHeap :=
  { sh with heap := dictSet sh.heap a (dictSet (heapRead sh a) k v) }

/-- What the store itself sees for (group, up): follow the group's
address into the heap. -/
def hm_read (sh : StoreHeap) (group_id up_name : String) : Option WatchInfo :=
  match dictGet sh.groups group_id with
  | none => none
  | some a => dictGet (heapRead sh a) up_name

example : dictGet (dictSet ([] : List (String × Nat)) "a" 3) "a" = some 3 := by decide

example : normalize_name "  AbC " = "abc" := by decide

example : lastFour "51234" = "1234" := by decide

example : strIsDigit "1234" = true ∧ strIsDigit "x_12" = false := by decide

theorem dictGet_dictSet_self {α β : Type} [DecidableEq α]
    (d : List (α × β)) (k : α) (v : β) :
    dictGet (dictSet d k v) k = some v := by
  induction d with
  | nil => simp [dictGet, dictSet]
  | cons p rest ih =>
    obtain ⟨k', v'⟩ := p
    by_cases h : k' = k <;> simp [dictGet, dictSet, h, ih]

theorem dictGet_dictSet_ne {α β : Type} [DecidableEq α]
    (d : List (α × β)) {k k' : α} (v : β) (h : k' ≠ k) :
    dictGet (dictSet d k v) k' = dictGet d k' := by
  induction d with
  | nil => simp [dictGet, dictSet, Ne.symm h]
  | cons p rest ih =>
    obtain ⟨k0, v0⟩ := p
    by_cases h0 : k0 = k
    · subst h0
      simp [dictGet, dictSet, Ne.symm h]
    · simp [dictGet, dictSet, h0, ih]

theorem dictSet_dictSet_self {α β : Type} [DecidableEq α]
    (d : List (α × β)) (k : α) (a b : β) :
    dictSet (dictSet d k a) k b = dictSet d k b := by
  induction d with
  | nil => simp [dictSet]
  | cons p rest ih =>
    obtain ⟨k', v'⟩ := p
    by_cases h : k' = k <;> simp [dictSet, h, ih]

theorem dictGet_dictDel_ne {α β : Type} [DecidableEq α]
    (d : List (α × β)) {k k' : α} (h : k' ≠ k) :
    dictGet (dictDel d k) k' = dictGet d k' := by
  induction d with
  | nil => simp [dictDel]
  | cons p rest ih =>
    obtain ⟨k0, v0⟩ := p
    by_cases h0 : k0 = k
    · subst h0
      simp [dictGet, dictDel, Ne.symm h]
    · simp [dictGet, dictDel, h0, ih]

theorem dictGet_eq_none_iff {α β : Type} [DecidableEq α]
    (d : List (α × β)) (k : α) :
    dictGet d k = none ↔ k ∉ d.map Prod.fst := by
  induction d with
  | nil => simp [dictGet]
  | cons p rest ih =>
    obtain ⟨k', v'⟩ := p
    by_cases h : k' = k
    · subst h
      simp [dictGet]
    · simp [dictGet, h, ih, Ne.symm h]

theorem dictGet_dictDel_self {α β : Type} [DecidableEq α]
    (d : List (α × β)) (k : α) (h : (d.map Prod.fst).Nodup) :
    dictGet (dictDel d k) k = none := by
  induction d with
  | nil => simp [dictDel, dictGet]
  | cons p rest ih =>
    obtain ⟨k', v'⟩ := p
    simp only [List.map_cons, List.nodup_cons] at h
    by_cases h0 : k' = k
    · subst h0
      simp only [dictDel, if_pos rfl]
      exact (dictGet_eq_none_iff rest k').mpr h.1
    · simp [dictDel, dictGet, h0, ih h.2]

theorem dictSet_eq_append {α β : Type} [DecidableEq α]
    (d : List (α × β)) (k : α) (v : β) (h : dictGet d k = none) :
    dictSet d k v = d ++ [(k, v)] := by
  induction d with
  | nil => simp [dictSet]
  | cons p rest ih =>
    obtain ⟨k', v'⟩ := p
    by_cases h0 : k' = k
    · simp [dictGet, h0] at h
    · simp only [dictGet, if_pos, if_neg h0] at h
      simp [dictSet, h0, ih h]

theorem dictGet_append_left {α β : Type} [DecidableEq α]
    (d1 d2 : List (α × β)) (k : α) (v : β) (h : dictGet d1 k = some v) :
    dictGet (d1 ++ d2) k = some v := by
  induction d1 with
  | nil => simp [dictGet] at h
  | cons p rest ih =>
    obtain ⟨k', v'⟩ := p
    by_cases h0 : k' = k
    · simp only [dictGet, if_pos h0] at h
      simp [dictGet, h0, h]
    · simp only [dictGet, if_neg h0] at h
      simp [dictGet, h0, ih h]

theorem dictGet_append_right {α β : Type} [DecidableEq α]
    (d1 d2 : List (α × β)) (k : α) (h : dictGet d1 k = none) :
    dictGet (d1 ++ d2) k = dictGet d2 k := by
  induction d1 with
  | nil => simp
  | cons p rest ih =>
    obtain ⟨k', v'⟩ := p
    by_cases h0 : k' = k
    · simp [dictGet, h0] at h
    · simp only [dictGet, if_neg h0] at h
      simp [dictGet, h0, ih h]

theorem dictGet_map_key {α β : Type} (l : List α)
    (key : α → String) (val : α → β) (a : α) (hmem : a ∈ l)
    (hnodup : (l.map key).Nodup) :
    dictGet (l.map (fun x => (key x, val x))) (key a) = some (val a) := by
  induction l with
  | nil => cases hmem
  | cons x rest ih =>
    simp only [List.map_cons, List.nodup_cons] at hnodup
    rcases List.mem_cons.mp hmem with h | h
    · subst h
      simp [dictGet]
    · have hne : key x ≠ key a := by
        intro he
        exact hnodup.1 (he ▸ List.mem_map_of_mem key h)
      simp [dictGet, hne, ih h hnodup.2]

theorem dictGet_mem {α β : Type} [DecidableEq α]
    (d : List (α × β)) (k : α) (v : β) (h : dictGet d k = some v) :
    (k, v) ∈ d := by
  induction d with
  | nil => simp [dictGet] at h
  | cons p rest ih =>
    obtain ⟨k', v'⟩ := p
    by_cases h0 : k' = k
    · subst h0
      simp only [dictGet, if_true, eq_self_iff_true, Option.some.injEq] at h
      subst h
      exact List.mem_cons_self _ _
    · simp only [dictGet, if_neg h0] at h
      exact List.mem_cons_of_mem _ (ih h)

theorem mem_keys_dictSet {α β : Type} [DecidableEq α]
    (d : List (α × β)) (k a : α) (v : β) :
    a ∈ (dictSet d k v).map Prod.fst ↔ a = k ∨ a ∈ d.map Prod.fst := by
  induction d with
  | nil => simp [dictSet]
  | cons p rest ih =>
    obtain ⟨k', v'⟩ := p
    by_cases h0 : k' = k
    · subst h0
      simp [dictSet]
    · simp only [dictSet, if_neg h0, List.map_cons, List.mem_cons, ih]
      tauto

theorem keys_dictSet_nodup {α β : Type} [DecidableEq α]
    (d : List (α × β)) (k : α) (v : β) (h : (d.map Prod.fst).Nodup) :
    ((dictSet d k v).map Prod.fst).Nodup := by
  induction d with
  | nil => simp [dictSet]
  | cons p rest ih =>
    obtain ⟨k', v'⟩ := p
    simp only [List.map_cons, List.nodup_cons] at h
    by_cases h0 : k' = k
    · subst h0
      simpa [dictSet] using h
    · simp only [dictSet, if_neg h0, List.map_cons, List.nodup_cons]
      refine ⟨?_, ih h.2⟩
      intro hmem
      rcases (mem_keys_dictSet rest k k' v).mp hmem with he | he
      · exact h0 he
      · exact h.1 he

/-- Attribution helper: a video selected by the search-path filter
always has the tracked creator's normalized author name. -/
theorem selectLatest_author_matches (up_name : String) (results : List Video)
    (v : Video) (h : selectLatest up_name results = some v) :
    normalize_name v.author = normalize_name up_name := by
  unfold selectLatest at h
  have hp := List.find?_some h
  exact eq_of_beq hp

/-- Computation helper: the shape of one reconciliation step on the
search path (nonempty search results with an attributable hit). -/
theorem check_one_sub_search_path (env : TickEnv) (st : Storage)
    (group_id up_name : String) (ups : List (String × WatchInfo))
    (info : WatchInfo) (latest : Video)
    (hg : dictGet st.data group_id = some ups)
    (hu : dictGet ups up_name = some info)
    (hres : env.searchResults.isEmpty = false)
    (hsel : selectLatest up_name env.searchResults = some latest) :
    check_one_sub env st group_id up_name =
      ((if (match info.last_vid with
            | none => true
            | some lv =>
              if lv.isEmpty then true
              else
                match env.videoInfo lv with
                | none => true
                | some lvi => decide (lvi.pubdate < latest.pubdate))
         then TickOutcome.notify latest else TickOutcome.noChange latest),
       update_last_video st group_id up_name latest.bvid env.now) := by
  simp [check_one_sub, hg, hu, hres, hsel]

/-- Computation helper: the record stored after update_last_video on an
existing subscription. -/
theorem update_last_video_lookup (st : Storage) (group_id up_name : String)
    (ups : List (String × WatchInfo)) (info : WatchInfo)
    (last_vid : String) (now : Int)
    (hg : dictGet st.data group_id = some ups)
    (hu : dictGet ups up_name = some info) :
    dictGet (update_last_video st group_id up_name last_vid now).data group_id
      = some (dictSet ups up_name ⟨now, some last_vid⟩)
    ∧ dictGet (dictSet ups up_name (⟨now, some last_vid⟩ : WatchInfo)) up_name
      = some ⟨now, some last_vid⟩ := by
  constructor
  · simp [update_last_video, hg, hu, dictGet_dictSet_self]
  · exact dictGet_dictSet_self ups up_name _

/-- C2: after an Add stored the subscription, a second Add for the
same (group, creator key) is rejected with the already-watching reply
and the whole store — in particular the stored record's last_vid and
last_check — is exactly what it was before the second call. The
duplicate check of the handler (line 312) fires because add_watch put
the name into the global name index. -/
theorem C2_add_twice_alreadyWatching (st : Storage) (g : Nat)
    (name : String) (lastVid : Option String) (now now2 : Int)
    (upInfo2 : Option UpInfo) (videos2 : List Video)
    (htrim : pyStrip name = name) (hne : name.isEmpty = false) :
    watch_bilibili_up (add_watch st (toString g) name lastVid now) g name
        upInfo2 videos2 now2
      = (AddResult.alreadyWatching,
         add_watch st (toString g) name lastVid now) := by
  have hfind : find_up_by_name (add_watch st (toString g) name lastVid now) name
      = some (toString g, name) := by
    simp [find_up_by_name, add_watch, normalize_name, htrim, dictGet_dictSet_self]
  simp [watch_bilibili_up, htrim, hne, hfind]

/-- Witness for C2 at a concrete store. -/
theorem C2_witness :
    watch_bilibili_up (add_watch ⟨[], []⟩ (toString 5) "acme" (some "BV1") 10)
        5 "acme" none [] 20
      = (AddResult.alreadyWatching,
         add_watch ⟨[], []⟩ (toString 5) "acme" (some "BV1") 10) :=
  C2_add_twice_alreadyWatching ⟨[], []⟩ 5 "acme" (some "BV1") 10 20 none []
    (by decide) (by decide)

/-- C10: when the stored last_vid's detail lookup fails (get_video_info
returns nothing, lines 472-475), the latest attributable record is
classified as new and a notification is emitted, with no constraint at
all on its publish time. -/
theorem C10_lookup_failure_notifies (env : TickEnv) (st : Storage)
    (group_id up_name : String) (ups : List (String × WatchInfo))
    (info : WatchInfo) (lv : String) (latest : Video)
    (hg : dictGet st.data group_id = some ups)
    (hu : dictGet ups up_name = some info)
    (hlv : info.last_vid = some lv) (hne : lv.isEmpty = false)
    (hvi : env.videoInfo lv = none)
    (hres : env.searchResults.isEmpty = false)
    (hsel : selectLatest up_name env.searchResults = some latest) :
    (check_one_sub env st group_id up_name).1 = TickOutcome.notify latest := by
  rw [check_one_sub_search_path env st group_id up_name ups info latest hg hu hres hsel]
  simp [hlv, hne, hvi]

/-- Concrete environment for the C10 witness: the stored video cannot
be looked up, and the attributable search hit is three years older than
anything previously delivered — yet a notification fires. -/
def envC10 : TickEnv :=
  ⟨[⟨"BVancient", "t", "up1", 7, 3, "p", true⟩], none, [],
   fun _ => none, 1000⟩

/-- Witness for C10 at a concrete subscription. -/
theorem C10_witness :
    (check_one_sub envC10 (add_watch ⟨[], []⟩ "1" "up1" (some "BVgone") 900)
        "1" "up1").1
      = TickOutcome.notify ⟨"BVancient", "t", "up1", 7, 3, "p", true⟩ :=
  C10_lookup_failure_notifies envC10
    (add_watch ⟨[], []⟩ "1" "up1" (some "BVgone") 900) "1" "up1"
    [("up1", ⟨900, some "BVgone"⟩)] ⟨900, some "BVgone"⟩ "BVgone"
    ⟨"BVancient", "t", "up1", 7, 3, "p", true⟩
    (by decide) (by decide) (by decide) (by decide) (by decide) (by decide)
    (by decide)

/-- Stale search hit for the C1 counterexample: attributable, but
published before the stored video. -/
def vStaleC1 : Video := ⟨"BVstale", "t1", "up1", 7, 50, "p", true⟩

/-- Stored video's details for the C1 counterexample. -/
def vStoredC1 : Video := ⟨"BVold", "t0", "up1", 7, 90, "p", true⟩

/-- Tick environment for the C1 counterexample. -/
def envC1 : TickEnv :=
  ⟨[vStaleC1], none, [],
   fun b => if b = "BVold" then some vStoredC1 else none, 200⟩

/-- Store for the C1 counterexample: group 1 watches up1 with stored
video BVold and last_check 100. -/
def stC1 : Storage := add_watch ⟨[], []⟩ "1" "up1" (some "BVold") 100

/-- Counterexample to C1 as stated: the directory returns an
attributable record whose publish time (50) is earlier than the stored
video's (90); no notification fires, but the stored subscription state
is NOT unchanged — the tick overwrites it (last_vid becomes the stale
BVstale, last_check becomes 200; lines 483-488 run unconditionally). -/
theorem C1_counterexample :
    (check_one_sub envC1 stC1 "1" "up1").1 = TickOutcome.noChange vStaleC1
    ∧ (check_one_sub envC1 stC1 "1" "up1").2 ≠ stC1
    ∧ dictGet ((check_one_sub envC1 stC1 "1" "up1").2.data) "1"
      = some [("up1", ⟨200, some "BVstale"⟩)] := by decide

/-- C1 as amended: with a stored last_vid whose details resolve, and an
attributable search hit whose publish time is not later than the stored
video's, no notification is emitted — but the stored state is rewritten
all the same: the record becomes (last_check = now, last_vid = the
returned record's id). -/
theorem C1_stale_hit_no_notify_but_state_rewritten (env : TickEnv)
    (st : Storage) (group_id up_name : String)
    (ups : List (String × WatchInfo)) (info : WatchInfo)
    (lv : String) (lvi latest : Video)
    (hg : dictGet st.data group_id = some ups)
    (hu : dictGet ups up_name = some info)
    (hlv : info.last_vid = some lv) (hne : lv.isEmpty = false)
    (hvi : env.videoInfo lv = some lvi)
    (hstale : latest.pubdate ≤ lvi.pubdate)
    (hres : env.searchResults.isEmpty = false)
    (hsel : selectLatest up_name env.searchResults = some latest) :
    (check_one_sub env st group_id up_name).1 = TickOutcome.noChange latest
    ∧ (check_one_sub env st group_id up_name).2
      = update_last_video st group_id up_name latest.bvid env.now
    ∧ dictGet ((check_one_sub env st group_id up_name).2.data) group_id
      = some (dictSet ups up_name ⟨env.now, some latest.bvid⟩) := by
  have hlt : decide (lvi.pubdate < latest.pubdate) = false :=
    decide_eq_false (not_lt.mpr hstale)
  rw [check_one_sub_search_path env st group_id up_name ups info latest hg hu hres hsel]
  refine ⟨?_, ?_, ?_⟩
  · simp [hlv, hne, hvi, hlt]
  · simp [hlv, hne, hvi, hlt]
  · exact (update_last_video_lookup st group_id up_name ups info latest.bvid env.now hg hu).1

/-- Witness for the amended C1, reusing the counterexample instance. -/
theorem C1_witness :
    (check_one_sub envC1 stC1 "1" "up1").1 = TickOutcome.noChange vStaleC1
    ∧ (check_one_sub envC1 stC1 "1" "up1").2
      = update_last_video stC1 "1" "up1" vStaleC1.bvid envC1.now
    ∧ dictGet ((check_one_sub envC1 stC1 "1" "up1").2.data) "1"
      = some (dictSet [("up1", ⟨100, some "BVold"⟩)] "up1"
          ⟨envC1.now, some vStaleC1.bvid⟩) :=
  C1_stale_hit_no_notify_but_state_rewritten envC1 stC1 "1" "up1"
    [("up1", ⟨100, some "BVold"⟩)] ⟨100, some "BVold"⟩ "BVold"
    vStoredC1 vStaleC1
    (by decide) (by decide) (by decide) (by decide) (by decide) (by decide)
    (by decide) (by decide)

/-- C3: presenting the same new content record on two consecutive ticks
(all directory lookups succeeding) notifies exactly once: the first
tick notifies and overwrites last_vid with the record's id, and the
second tick — looking that id up and comparing its publish time with
itself — reports no change. -/
theorem C3_same_record_notifies_once (env1 env2 : TickEnv) (st : Storage)
    (group_id up_name : String) (ups : List (String × WatchInfo))
    (info : WatchInfo) (lv : String) (old c c2 : Video)
    (hg : dictGet st.data group_id = some ups)
    (hu : dictGet ups up_name = some info)
    (hlv : info.last_vid = some lv) (hne : lv.isEmpty = false)
    (hres1 : env1.searchResults.isEmpty = false)
    (hsel1 : selectLatest up_name env1.searchResults = some c)
    (hvi1 : env1.videoInfo lv = some old)
    (hnew : old.pubdate < c.pubdate)
    (hcb : c.bvid.isEmpty = false)
    (hres2 : env2.searchResults.isEmpty = false)
    (hsel2 : selectLatest up_name env2.searchResults = some c)
    (hvi2 : env2.videoInfo c.bvid = some c2)
    (hsame : c2.pubdate = c.pubdate) :
    (check_one_sub env1 st group_id up_name).1 = TickOutcome.notify c
    ∧ (check_one_sub env2 (check_one_sub env1 st group_id up_name).2
        group_id up_name).1 = TickOutcome.noChange c := by
  have h1 := check_one_sub_search_path env1 st group_id up_name ups info c
    hg hu hres1 hsel1
  have hlt1 : decide (old.pubdate < c.pubdate) = true := decide_eq_true hnew
  have hout1 : check_one_sub env1 st group_id up_name
      = (TickOutcome.notify c,
         update_last_video st group_id up_name c.bvid env1.now) := by
    rw [h1]
    simp [hlv, hne, hvi1, hlt1]
  have hup := update_last_video_lookup st group_id up_name ups info c.bvid env1.now hg hu
  have hlt2 : decide (c2.pubdate < c.pubdate) = false := by
    rw [hsame]
    exact decide_eq_false (lt_irrefl c.pubdate)
  have h2 := check_one_sub_search_path env2
    (update_last_video st group_id up_name c.bvid env1.now) group_id up_name
    (dictSet ups up_name ⟨env1.now, some c.bvid⟩) ⟨env1.now, some c.bvid⟩ c
    hup.1 hup.2 hres2 hsel2
  refine ⟨by rw [hout1], ?_⟩
  rw [hout1, h2]
  simp [hcb, hvi2, hlt2]

/-- Environments for the C3 witness: the same record BVnew is the
attributable top hit on both ticks; BVprev is the previously stored
video, one hour older. -/
def envC3a : TickEnv :=
  ⟨[⟨"BVnew", "t", "up1", 7, 3600, "p", true⟩], none, [],
   fun b => if b = "BVprev" then some ⟨"BVprev", "t0", "up1", 7, 0, "p", true⟩
            else none, 5000⟩

/-- Second-tick environment for the C3 witness. -/
def envC3b : TickEnv :=
  ⟨[⟨"BVnew", "t", "up1", 7, 3600, "p", true⟩], none, [],
   fun b => if b = "BVnew" then some ⟨"BVnew", "t", "up1", 7, 3600, "p", true⟩
            else none, 5060⟩

/-- Witness for C3: one notify, then no change. -/
theorem C3_witness :
    (check_one_sub envC3a (add_watch ⟨[], []⟩ "1" "up1" (some "BVprev") 100)
        "1" "up1").1
      = TickOutcome.notify ⟨"BVnew", "t", "up1", 7, 3600, "p", true⟩
    ∧ (check_one_sub envC3b
        (check_one_sub envC3a (add_watch ⟨[], []⟩ "1" "up1" (some "BVprev") 100)
          "1" "up1").2 "1" "up1").1
      = TickOutcome.noChange ⟨"BVnew", "t", "up1", 7, 3600, "p", true⟩ :=
  C3_same_record_notifies_once envC3a envC3b
    (add_watch ⟨[], []⟩ "1" "up1" (some "BVprev") 100) "1" "up1"
    [("up1", ⟨100, some "BVprev"⟩)] ⟨100, some "BVprev"⟩ "BVprev"
    ⟨"BVprev", "t0", "up1", 7, 0, "p", true⟩
    ⟨"BVnew", "t", "up1", 7, 3600, "p", true⟩
    ⟨"BVnew", "t", "up1", 7, 3600, "p", true⟩
    (by decide) (by decide) (by decide) (by decide) (by decide) (by decide)
    (by decide) (by decide) (by decide) (by decide) (by decide) (by decide)
    (by decide)

/-- Impostor video for the C4 counterexample: author display name
matches the tracked creator after normalization, but the author id (2)
is not the tracked creator's id (1). -/
def vImpostor : Video := ⟨"BVimp", "t", "Acme", 2, 100, "p", true⟩

/-- Counterexample to C4 as stated: it is not true that a record whose
author id differs from the tracked creator id is never selected — the
code never stores or consults any creator id (watch_bilibili_up
discards up_info.mid), so a same-named record with a different mid is
selected. -/
theorem C4_counterexample :
    ¬ (∀ (trackedMid : Nat) (up_name : String) (results : List Video)
        (v : Video), v ∈ results → v.mid ≠ trackedMid →
        selectLatest up_name results ≠ some v) := by
  intro h
  exact h 1 "acme" [vImpostor] vImpostor (List.mem_singleton.mpr rfl)
    (by decide) (by decide)

/-- C4 as amended: attribution on the keyword-search path is by
normalized author display name, not by author id. Any record the
filter selects has the tracked creator's normalized name, and any
notification produced on the search path carries such a record — so a
record whose normalized author NAME differs from the tracked name is
never selected and never notified, while the author id is never
checked at all. -/
theorem C4_attribution_by_name (up_name : String) (env : TickEnv)
    (st : Storage) (group_id : String) :
    (∀ (results : List Video) (v : Video),
        selectLatest up_name results = some v →
        normalize_name v.author = normalize_name up_name)
    ∧ (∀ v : Video, env.searchResults.isEmpty = false →
        (check_one_sub env st group_id up_name).1 = TickOutcome.notify v →
        normalize_name v.author = normalize_name up_name) := by
  refine ⟨fun results v h => selectLatest_author_matches up_name results v h, ?_⟩
  intro v hres hnotify
  rcases hg : dictGet st.data group_id with _ | ups
  · simp [check_one_sub, hg] at hnotify
  rcases hu : dictGet ups up_name with _ | info
  · simp [check_one_sub, hg, hu] at hnotify
  rcases hsel : selectLatest up_name env.searchResults with _ | latest
  · simp [check_one_sub, hg, hu, hres, hsel] at hnotify
  · rw [check_one_sub_search_path env st group_id up_name ups info latest
      hg hu hres hsel] at hnotify
    by_cases hb : (match info.last_vid with
        | none => true
        | some lv =>
          if lv.isEmpty then true
          else
            match env.videoInfo lv with
            | none => true
            | some lvi => decide (lvi.pubdate < latest.pubdate)) = true
    · rw [if_pos hb] at hnotify
      cases hnotify
      exact selectLatest_author_matches up_name env.searchResults v hsel
    · rw [if_neg hb] at hnotify
      cases hnotify

/-- Witness for the amended C4: a correctly-named hit is the selected
one and has the matching normalized author name. -/
theorem C4_witness :
    normalize_name (Video.author ⟨"BVok", "t", "Acme", 9, 1, "p", true⟩)
      = normalize_name "acme" :=
  (C4_attribution_by_name "acme" envC1 stC1 "1").1
    [⟨"BVok", "t", "Acme", 9, 1, "p", true⟩]
    ⟨"BVok", "t", "Acme", 9, 1, "p", true⟩ (by decide)

/-- Store for the C6 counterexample: only group 2 watches alice. -/
def stC6 : Storage := add_watch ⟨[], []⟩ "2" "alice" (some "BVa") 5

/-- Counterexample to C6 as stated: the identifier alice resolves to no
watched creator of group 1 (group 1 watches nothing at all), so per the
claim the removal issued in group 1 must fail with NotWatching and
leave the store unchanged — but it succeeds and removes group 2's
subscription, because the handler resolves through the global name
index and ignores the caller's group. -/
theorem C6_counterexample :
    dictGet stC6.data "1" = none
    ∧ (unwatch_bilibili_up stC6 1 "alice").1 = RemoveResult.removed "alice"
    ∧ (unwatch_bilibili_up stC6 1 "alice").2 ≠ stC6 := by decide

/-- C6 as amended: removal by display name in any letter case and
removal by the canonical stored key run identically (the caller's group
id is irrelevant); an identifier that resolves in the global name index
to an existing record is removed successfully, returning the exact
stored name; removal fails with NotWatching — store untouched — exactly
when the identifier resolves in NO group (an identifier watched only by
a different group removes that group's subscription instead of
failing). -/
theorem C6_remove_by_name_or_key (st : Storage) (gid1 gid2 : Nat) :
    (∀ i1 i2 : String, pyStrip i1 = i1 → pyStrip i2 = i2 →
        pyLower i1 = pyLower i2 →
        unwatch_bilibili_up st gid1 i1 = unwatch_bilibili_up st gid2 i2)
    ∧ (∀ i : String, find_up_by_name st (pyStrip i) = none →
        unwatch_bilibili_up st gid1 i = (RemoveResult.notWatching, st))
    ∧ (∀ (i g ex : String) (ups : List (String × WatchInfo)) (r : WatchInfo),
        find_up_by_name st (pyStrip i) = some (g, ex) →
        dictGet st.data g = some ups → dictGet ups ex = some r →
        (unwatch_bilibili_up st gid1 i).1 = RemoveResult.removed ex) := by
  refine ⟨?_, ?_, ?_⟩
  · intro i1 i2 h1 h2 h12
    simp [unwatch_bilibili_up, find_up_by_name, normalize_name, h1, h2, h12]
  · intro i hfind
    simp [unwatch_bilibili_up, hfind]
  · intro i g ex ups r hfind hg hr
    simp [unwatch_bilibili_up, hfind, remove_watch, hg, hr]

/-- Store for the C6 witness: group 3 watches bob. -/
def stC6w : Storage := add_watch ⟨[], []⟩ "3" "bob" none 1

/-- Witness for the amended C6: case-variant and canonical-key removal
agree, an unresolvable identifier fails with NotWatching leaving the
store as is, and a resolvable one removes the exact stored name. -/
theorem C6_witness :
    unwatch_bilibili_up stC6w 1 "BOB" = unwatch_bilibili_up stC6w 2 "bob"
    ∧ unwatch_bilibili_up stC6w 1 "nobody" = (RemoveResult.notWatching, stC6w)
    ∧ (unwatch_bilibili_up stC6w 1 "Bob").1 = RemoveResult.removed "bob" := by
  refine ⟨?_, ?_, ?_⟩
  · exact (C6_remove_by_name_or_key stC6w 1 2).1 "BOB" "bob"
      (by decide) (by decide) (by decide)
  · exact (C6_remove_by_name_or_key stC6w 1 1).2.1 "nobody" (by decide)
  · exact (C6_remove_by_name_or_key stC6w 1 1).2.2 "Bob" "3" "bob"
      [("bob", ⟨1, none⟩)] ⟨1, none⟩ (by decide) (by decide) (by decide)

/-- Store-heap for the C8 counterexample: group 1's dict lives at
address 0 and is empty. -/
def shC8 : StoreHeap := ⟨[("1", 0)], [(0, [])], 1⟩

/-- Record the caller writes into the returned dict in C8. -/
def rC8 : WatchInfo := ⟨1, some "BVx"⟩

/-- Counterexample to C8 as stated: get_group_watches hands out the
stored inner dict object itself (address 0), and a caller-side write
into that object changes what the store subsequently reads — the
returned value is an alias, not a copy. -/
theorem C8_counterexample :
    (hm_get_group_watches shC8 "1").1 = 0
    ∧ hm_read (hm_mutate shC8 0 "alice" rC8) "1" "alice"
      ≠ hm_read shC8 "1" "alice" := by decide

/-- C8 as amended: for every present group, get_group_watches returns
the address of the store's own inner dict, so any caller mutation of
the returned mapping is visible in the store's subsequent reads. -/
theorem C8_get_group_watches_aliases (sh : StoreHeap) (group_id : String)
    (a : Nat) (hga : dictGet sh.groups group_id = some a)
    (k : String) (v : WatchInfo) :
    (hm_get_group_watches sh group_id).1 = a
    ∧ hm_read (hm_mutate sh a k v) group_id k = some v := by
  constructor
  · simp [hm_get_group_watches, hga]
  · simp [hm_read, hm_mutate, hga, heapRead, dictGet_dictSet_self]

/-- Witness for the amended C8 at the concrete heap. -/
theorem C8_witness :
    (hm_get_group_watches shC8 "1").1 = 0
    ∧ hm_read (hm_mutate shC8 0 "alice" rC8) "1" "alice" = some rC8 :=
  C8_get_group_watches_aliases shC8 "1" 0 (by decide) "alice" rC8

/-- C9: the name index is global, not per (group, creator). When a
second group adds a creator name already watched by another group (at
the storage level — the handler's duplicate check would refuse), the
single index slot for the normalized name is overwritten to the most
recent (group, name) pair while the first group's record stays in the
data: name lookup resolves only to the most recent group's
subscription, the duplicate-watch check rejects every group on that
name, and name-based removal deletes exactly the most recent group's
record, leaving the first group's record stored (though no longer
reachable by name). -/
theorem C9_name_index_global_last_add_wins (st st2 : Storage)
    (g1 g2 n : String) (v1 v2 : Option String) (t1 t2 : Int) (caller : Nat)
    (hst2 : st2 = add_watch (add_watch st g1 n v1 t1) g2 n v2 t2)
    (hwfg : (st.data.map Prod.fst).Nodup)
    (hwfu : ∀ p ∈ st.data, (p.2.map Prod.fst).Nodup)
    (htrim : pyStrip n = n) (hne : n.isEmpty = false) (hg : g1 ≠ g2) :
    find_up_by_name st2 n = some (g2, n)
    ∧ (dictGet st2.data g1).bind (fun ups => dictGet ups n) = some ⟨t1, v1⟩
    ∧ (∀ (upi : Option UpInfo) (vids : List Video) (t3 : Int) (g3 : Nat),
        (watch_bilibili_up st2 g3 n upi vids t3).1 = AddResult.alreadyWatching)
    ∧ (dictGet (unwatch_bilibili_up st2 caller n).2.data g2).bind
        (fun ups => dictGet ups n) = none
    ∧ (dictGet (unwatch_bilibili_up st2 caller n).2.data g1).bind
        (fun ups => dictGet ups n) = some ⟨t1, v1⟩ := by
  subst hst2
  have hg2 : g2 ≠ g1 := Ne.symm hg
  have hd1 : (add_watch st g1 n v1 t1).data
      = dictSet st.data g1
          (dictSet ((dictGet st.data g1).getD []) n ⟨t1, v1⟩) := rfl
  have hd2 : (add_watch (add_watch st g1 n v1 t1) g2 n v2 t2).data
      = dictSet (add_watch st g1 n v1 t1).data g2
          (dictSet ((dictGet (add_watch st g1 n v1 t1).data g2).getD [])
            n ⟨t2, v2⟩) := rfl
  set upsG2 : List (String × WatchInfo) :=
    dictSet ((dictGet (add_watch st g1 n v1 t1).data g2).getD []) n ⟨t2, v2⟩
    with hupsG2
  have hg1get : dictGet (add_watch (add_watch st g1 n v1 t1) g2 n v2 t2).data g1
      = some (dictSet ((dictGet st.data g1).getD []) n ⟨t1, v1⟩) := by
    rw [hd2, dictGet_dictSet_ne _ _ hg, hd1, dictGet_dictSet_self]
  have hc2 : (dictGet (add_watch (add_watch st g1 n v1 t1) g2 n v2 t2).data g1).bind
      (fun ups => dictGet ups n) = some ⟨t1, v1⟩ := by
    rw [hg1get]
    simp [dictGet_dictSet_self]
  have hidx : (add_watch (add_watch st g1 n v1 t1) g2 n v2 t2).name_index
      = dictSet st.name_index (pyLower n) (g2, n) := by
    simp [add_watch, dictSet_dictSet_self]
  have hfind : find_up_by_name (add_watch (add_watch st g1 n v1 t1) g2 n v2 t2) n
      = some (g2, n) := by
    simp only [find_up_by_name, hidx, normalize_name, htrim]
    exact dictGet_dictSet_self _ _ _
  have hwatch : ∀ (upi : Option UpInfo) (vids : List Video) (t3 : Int) (g3 : Nat),
      (watch_bilibili_up (add_watch (add_watch st g1 n v1 t1) g2 n v2 t2)
        g3 n upi vids t3).1 = AddResult.alreadyWatching := by
    intro upi vids t3 g3
    simp [watch_bilibili_up, htrim, hne, hfind]
  have hg2get : dictGet (add_watch (add_watch st g1 n v1 t1) g2 n v2 t2).data g2
      = some upsG2 := by
    rw [hd2, dictGet_dictSet_self]
  have hrec2 : dictGet upsG2 n = some ⟨t2, v2⟩ := dictGet_dictSet_self _ _ _
  have hrw : remove_watch (add_watch (add_watch st g1 n v1 t1) g2 n v2 t2) g2 n
      = (true,
         ⟨if (dictDel upsG2 n).isEmpty
           then dictDel (add_watch (add_watch st g1 n v1 t1) g2 n v2 t2).data g2
           else dictSet (add_watch (add_watch st g1 n v1 t1) g2 n v2 t2).data g2
             (dictDel upsG2 n),
          dictDel (add_watch (add_watch st g1 n v1 t1) g2 n v2 t2).name_index
            (pyLower n)⟩) := by
    simp [remove_watch, hg2get, hrec2]
  have huwdata : (unwatch_bilibili_up
        (add_watch (add_watch st g1 n v1 t1) g2 n v2 t2) caller n).2.data
      = if (dictDel upsG2 n).isEmpty
        then dictDel (add_watch (add_watch st g1 n v1 t1) g2 n v2 t2).data g2
        else dictSet (add_watch (add_watch st g1 n v1 t1) g2 n v2 t2).data g2
          (dictDel upsG2 n) := by
    simp [unwatch_bilibili_up, htrim, hfind, hrw]
  have hnodupD : (((add_watch (add_watch st g1 n v1 t1) g2 n v2 t2).data).map
      Prod.fst).Nodup := by
    rw [hd2]
    exact keys_dictSet_nodup _ _ _ (by rw [hd1]; exact keys_dictSet_nodup _ _ _ hwfg)
  have hnodup2 : (((dictGet (add_watch st g1 n v1 t1).data g2).getD []).map
      Prod.fst).Nodup := by
    rcases hh : dictGet (add_watch st g1 n v1 t1).data g2 with _ | u
    · simp
    · rw [hd1, dictGet_dictSet_ne _ _ hg2] at hh
      simpa using hwfu (g2, u) (dictGet_mem _ _ _ hh)
  have hnodupG2 : (upsG2.map Prod.fst).Nodup := keys_dictSet_nodup _ _ _ hnodup2
  have hc4 : (dictGet (unwatch_bilibili_up
        (add_watch (add_watch st g1 n v1 t1) g2 n v2 t2) caller n).2.data g2).bind
      (fun ups => dictGet ups n) = none := by
    rw [huwdata]
    by_cases he : (dictDel upsG2 n).isEmpty
    · rw [if_pos he, dictGet_dictDel_self _ _ hnodupD]
      rfl
    · rw [if_neg he, dictGet_dictSet_self]
      simp [dictGet_dictDel_self _ _ hnodupG2]
  have hc5 : (dictGet (unwatch_bilibili_up
        (add_watch (add_watch st g1 n v1 t1) g2 n v2 t2) caller n).2.data g1).bind
      (fun ups => dictGet ups n) = some ⟨t1, v1⟩ := by
    rw [huwdata]
    by_cases he : (dictDel upsG2 n).isEmpty
    · rw [if_pos he, dictGet_dictDel_ne _ hg, hg1get]
      simp [dictGet_dictSet_self]
    · rw [if_neg he, dictGet_dictSet_ne _ _ hg, hg1get]
      simp [dictGet_dictSet_self]
  exact ⟨hfind, hc2, hwatch, hc4, hc5⟩

/-- Store for the C9 witness: group 1 then group 2 add alice. -/
def stC9 : Storage :=
  add_watch (add_watch ⟨[], []⟩ "1" "alice" (some "a") 1) "2" "alice" (some "b") 2

/-- Witness for C9 at the concrete two-group store. -/
theorem C9_witness :
    find_up_by_name stC9 "alice" = some ("2", "alice")
    ∧ (dictGet stC9.data "1").bind (fun ups => dictGet ups "alice")
      = some ⟨1, some "a"⟩
    ∧ (watch_bilibili_up stC9 3 "alice" none [] 9).1 = AddResult.alreadyWatching
    ∧ (dictGet (unwatch_bilibili_up stC9 7 "alice").2.data "2").bind
      (fun ups => dictGet ups "alice") = none
    ∧ (dictGet (unwatch_bilibili_up stC9 7 "alice").2.data "1").bind
      (fun ups => dictGet ups "alice") = some ⟨1, some "a"⟩ := by
  have h := C9_name_index_global_last_add_wins ⟨[], []⟩ stC9 "1" "2" "alice"
    (some "a") (some "b") 1 2 7 rfl (by decide) (by simp) (by decide) (by decide)
    (by decide)
  exact ⟨h.1, h.2.1, h.2.2.1 none [] 9 3, h.2.2.2.1, h.2.2.2.2⟩

/-- C7: after a miss populated the cache at t1 (the code's only Put),
a Get strictly inside the TTL returns exactly the cached value without
performing the HTTP search and leaves the cache as it is, while a Get
at or after t1 + TTL performs the HTTP search again (the expired hit is
treated as a miss purely by the per-read age check — no sweep runs in
between). -/
theorem C7_cache_ttl (c0 : CacheState) (raw1 : List Video)
    (dir2 dir3 : Option (List Video)) (kw ty : String) (t1 t2 t3 : Int)
    (hmiss : dictGet c0.entries (cache_key ty kw) = none)
    (hhit : t2 - t1 < CACHE_EXPIRE_SECONDS)
    (hexp : CACHE_EXPIRE_SECONDS ≤ t3 - t1) :
    (get_bilibili_search ((get_bilibili_search c0 (some raw1) kw ty t1).2.2)
        dir2 kw ty t2).1
      = (get_bilibili_search c0 (some raw1) kw ty t1).1
    ∧ (get_bilibili_search ((get_bilibili_search c0 (some raw1) kw ty t1).2.2)
        dir2 kw ty t2).2.1 = false
    ∧ (get_bilibili_search ((get_bilibili_search c0 (some raw1) kw ty t1).2.2)
        dir2 kw ty t2).2.2
      = (get_bilibili_search c0 (some raw1) kw ty t1).2.2
    ∧ (get_bilibili_search ((get_bilibili_search c0 (some raw1) kw ty t1).2.2)
        dir3 kw ty t3).2.1 = true := by
  set res1 : List Video :=
    if ty = "up" then (raw1.take MAX_RESULTS).filter (fun v => v.hasAuthor)
    else raw1.take MAX_RESULTS with hres1
  have hlen : res1.length ≤ MAX_RESULTS := by
    rw [hres1]
    by_cases hty : ty = "up"
    · rw [if_pos hty]
      exact le_trans (List.length_filter_le _ _) (List.length_take_le _ _)
    · rw [if_neg hty]
      exact List.length_take_le _ _
  have h1 : get_bilibili_search c0 (some raw1) kw ty t1
      = (res1, true, ⟨dictSet c0.entries (cache_key ty kw) (res1, t1)⟩) := by
    by_cases hty : ty = "up"
    · subst hty
      simp [get_bilibili_search, hmiss, hres1]
    · simp [get_bilibili_search, hmiss, hres1, hty]
  have hc1get : dictGet (dictSet c0.entries (cache_key ty kw) (res1, t1))
      (cache_key ty kw) = some (res1, t1) := dictGet_dictSet_self _ _ _
  have htake : res1.take MAX_RESULTS = res1 := List.take_of_length_le hlen
  have h2 : get_bilibili_search
      ⟨dictSet c0.entries (cache_key ty kw) (res1, t1)⟩ dir2 kw ty t2
      = (res1, false,
         (⟨dictSet c0.entries (cache_key ty kw) (res1, t1)⟩ : CacheState)) := by
    simp only [get_bilibili_search, hc1get]
    rw [if_pos hhit, htake]
  have h3 : (get_bilibili_search
      ⟨dictSet c0.entries (cache_key ty kw) (res1, t1)⟩ dir3 kw ty t3).2.1
      = true := by
    simp only [get_bilibili_search, hc1get]
    rw [if_neg (not_lt.mpr hexp)]
    rcases dir3 with _ | raw3 <;> simp
  refine ⟨?_, ?_, ?_, ?_⟩
  · rw [h1, h2]
  · rw [h1, h2]
  · rw [h1, h2]
  · rw [h1]
    exact h3

/-- Witness for C7 at a concrete cache history. -/
theorem C7_witness :
    (get_bilibili_search ((get_bilibili_search ⟨[]⟩
        (some [⟨"BV1", "t", "a", 1, 10, "p", true⟩]) "k" "video" 0).2.2)
        (some []) "k" "video" 100).1
      = (get_bilibili_search ⟨[]⟩
        (some [⟨"BV1", "t", "a", 1, 10, "p", true⟩]) "k" "video" 0).1
    ∧ (get_bilibili_search ((get_bilibili_search ⟨[]⟩
        (some [⟨"BV1", "t", "a", 1, 10, "p", true⟩]) "k" "video" 0).2.2)
        (some []) "k" "video" 100).2.1 = false
    ∧ (get_bilibili_search ((get_bilibili_search ⟨[]⟩
        (some [⟨"BV1", "t", "a", 1, 10, "p", true⟩]) "k" "video" 0).2.2)
        (some []) "k" "video" 100).2.2
      = (get_bilibili_search ⟨[]⟩
        (some [⟨"BV1", "t", "a", 1, 10, "p", true⟩]) "k" "video" 0).2.2
    ∧ (get_bilibili_search ((get_bilibili_search ⟨[]⟩
        (some [⟨"BV1", "t", "a", 1, 10, "p", true⟩]) "k" "video" 0).2.2)
        none "k" "video" 180).2.1 = true :=
  C7_cache_ttl ⟨[]⟩ [⟨"BV1", "t", "a", 1, 10, "p", true⟩] (some []) none
    "k" "video" 0 100 180 (by decide) (by decide) (by decide)

/-- Name of a legacy record ("" only when the field is absent). -/
def oldName (r : String × OldInfo) : String := r.2.up_name.getD ""

/-- Watch record a legacy record migrates to. -/
def oldRec (r : String × OldInfo) : WatchInfo := ⟨r.2.last_check, r.2.last_vid⟩

/-- Migrated group dict of one legacy group, in the collision-free case. -/
def groupOut (g : String × List (String × OldInfo)) : List (String × WatchInfo) :=
  g.2.map (fun r => (oldName r, oldRec r))

/-- Name-index contribution of one legacy group, collision-free case. -/
def groupIdx (g : String × List (String × OldInfo)) :
    List (String × (String × String)) :=
  g.2.map (fun r => (pyLower (oldName r), (g.1, oldName r)))

/-- All lowered creator names of a legacy file, in file order. -/
def fileLowNames (file : DiskFile) : List String :=
  concatMap (fun g => g.2.map (fun r => pyLower (oldName r))) file

/-- All lowered record KEYS of a file (for the rebuild on reload). -/
def fileLowKeys (file : DiskFile) : List String :=
  concatMap (fun g => g.2.map (fun r => pyLower r.1)) file

theorem concatMap_nil {α β : Type} (f : α → List β) : concatMap f [] = [] := rfl

theorem concatMap_cons {α β : Type} (f : α → List β) (a : α) (l : List α) :
    concatMap f (a :: l) = f a ++ concatMap f l := rfl

theorem concatMap_map {α β γ : Type} (f : β → List γ) (g : α → β) (l : List α) :
    concatMap f (l.map g) = concatMap (fun a => f (g a)) l := by
  induction l with
  | nil => rfl
  | cons a rest ih => simp [concatMap, ih]

theorem concatMap_congr {α β : Type} (f f' : α → List β) (l : List α)
    (h : ∀ a ∈ l, f a = f' a) : concatMap f l = concatMap f' l := by
  induction l with
  | nil => rfl
  | cons a rest ih =>
    simp only [concatMap]
    rw [h a (List.mem_cons_self _ _), ih (fun x hx => h x (List.mem_cons_of_mem _ hx))]

theorem concatMap_nodup_mem {α β : Type} (f : α → List β) (l : List α)
    (h : (concatMap f l).Nodup) (a : α) (ha : a ∈ l) : (f a).Nodup := by
  induction l with
  | nil => cases ha
  | cons x rest ih =>
    rw [concatMap_cons, List.nodup_append] at h
    rcases List.mem_cons.mp ha with hax | hax
    · subst hax
      exact h.1
    · exact ih h.2.1 hax

/-- Characterization of the per-group migration loop when no lowered
name collides with the incoming index, the group accumulator, or
another record of the group: every record is re-keyed to exactly its
own name and both outputs are plain appends. -/
theorem migrateGroup_eq (gid : String) (ups : List (String × OldInfo))
    (gacc : List (String × WatchInfo))
    (idx : List (String × (String × String)))
    (hname : ∀ r ∈ ups, r.2.up_name.isSome)
    (hfresh : ∀ r ∈ ups, dictGet idx (pyLower (oldName r)) = none)
    (hgfresh : ∀ r ∈ ups, dictGet gacc (oldName r) = none)
    (hnodup : (ups.map (fun r => pyLower (oldName r))).Nodup) :
    migrateGroup gid ups gacc idx
      = (gacc ++ ups.map (fun r => (oldName r, oldRec r)),
         idx ++ ups.map (fun r => (pyLower (oldName r), (gid, oldName r)))) := by
  induction ups generalizing gacc idx with
  | nil => simp [migrateGroup]
  | cons r rest ih =>
    obtain ⟨uid, info⟩ := r
    obtain ⟨nm, hnm0⟩ := Option.isSome_iff_exists.mp
      (hname (uid, info) (List.mem_cons_self _ _))
    have hnm : info.up_name = some nm := hnm0
    have honm : oldName (uid, info) = nm := by simp [oldName, hnm]
    have hfr : dictGet idx (pyLower nm) = none := by
      have h0 := hfresh (uid, info) (List.mem_cons_self _ _)
      rwa [honm] at h0
    have hgr : dictGet gacc nm = none := by
      have h0 := hgfresh (uid, info) (List.mem_cons_self _ _)
      rwa [honm] at h0
    simp only [List.map_cons, honm, List.nodup_cons] at hnodup
    have hlowne : ∀ r' ∈ rest, pyLower (oldName r') ≠ pyLower nm := by
      intro r' hr' he
      exact hnodup.1 (he ▸ List.mem_map_of_mem (fun r0 => pyLower (oldName r0)) hr')
    have hnamene : ∀ r' ∈ rest, oldName r' ≠ nm := by
      intro r' hr' he
      exact hlowne r' hr' (by rw [he])
    have hstep : migrateGroup gid ((uid, info) :: rest) gacc idx
        = migrateGroup gid rest (dictSet gacc nm ⟨info.last_check, info.last_vid⟩)
            (dictSet idx (pyLower nm) (gid, nm)) := by
      simp [migrateGroup, hnm, hfr]
    have hname2 : ∀ r' ∈ rest, r'.2.up_name.isSome :=
      fun r' hr' => hname r' (List.mem_cons_of_mem _ hr')
    have hfresh2 : ∀ r' ∈ rest,
        dictGet (idx ++ [(pyLower nm, (gid, nm))]) (pyLower (oldName r')) = none := by
      intro r' hr'
      rw [dictGet_append_right _ _ _ (hfresh r' (List.mem_cons_of_mem _ hr'))]
      simp [dictGet, Ne.symm (hlowne r' hr')]
    have hgfresh2 : ∀ r' ∈ rest,
        dictGet (gacc ++ [(nm, (⟨info.last_check, info.last_vid⟩ : WatchInfo))])
          (oldName r') = none := by
      intro r' hr'
      rw [dictGet_append_right _ _ _ (hgfresh r' (List.mem_cons_of_mem _ hr'))]
      simp [dictGet, Ne.symm (hnamene r' hr')]
    rw [hstep, dictSet_eq_append _ _ _ hgr, dictSet_eq_append _ _ _ hfr]
    rw [ih _ _ hname2 hfresh2 hgfresh2 hnodup.2]
    simp [honm, oldRec, hnm, List.append_assoc]

/-- Characterization of the whole migration when every record carries
its name, group keys are unique, and all lowered names are pairwise
distinct file-wide: data and index are plain appends of the per-group
images. -/
theorem migrateGroups_eq (file : DiskFile)
    (dacc : List (String × List (String × WatchInfo)))
    (idx : List (String × (String × String)))
    (hname : ∀ g ∈ file, ∀ r ∈ g.2, r.2.up_name.isSome)
    (hfresh : ∀ s ∈ fileLowNames file, dictGet idx s = none)
    (hgfresh : ∀ g ∈ file, dictGet dacc g.1 = none)
    (hgnodup : (file.map Prod.fst).Nodup)
    (hnodup : (fileLowNames file).Nodup) :
    migrateGroups file dacc idx
      = ⟨dacc ++ file.map (fun g => (g.1, groupOut g)),
         idx ++ concatMap groupIdx file⟩ := by
  induction file generalizing dacc idx with
  | nil => simp [migrateGroups, concatMap]
  | cons g rest ih =>
    obtain ⟨gid, ups⟩ := g
    have hln : fileLowNames ((gid, ups) :: rest)
        = ups.map (fun r => pyLower (oldName r)) ++ fileLowNames rest :=
      concatMap_cons _ _ _
    have hnodup' := hnodup
    rw [hln, List.nodup_append] at hnodup'
    have hfr1 : ∀ r ∈ ups, dictGet idx (pyLower (oldName r)) = none := by
      intro r hr
      apply hfresh
      rw [hln]
      exact List.mem_append_left _
        (List.mem_map_of_mem (fun r0 => pyLower (oldName r0)) hr)
    have hmg := migrateGroup_eq gid ups [] idx
      (fun r hr => hname (gid, ups) (List.mem_cons_self _ _) r hr)
      hfr1 (fun r _ => rfl) hnodup'.1
    simp only [List.map_cons, List.nodup_cons] at hgnodup
    have hstep : migrateGroups ((gid, ups) :: rest) dacc idx
        = migrateGroups rest
            (dictSet dacc gid ([] ++ ups.map (fun r => (oldName r, oldRec r))))
            (idx ++ ups.map (fun r => (pyLower (oldName r), (gid, oldName r)))) := by
      rw [migrateGroups, hmg]
    have hgidx : groupIdx (gid, ups)
        = ups.map (fun r => (pyLower (oldName r), (gid, oldName r))) := rfl
    have hgout : groupOut (gid, ups) = ups.map (fun r => (oldName r, oldRec r)) := rfl
    have hname2 : ∀ g' ∈ rest, ∀ r ∈ g'.2, r.2.up_name.isSome :=
      fun g' hg' r hr => hname g' (List.mem_cons_of_mem _ hg') r hr
    have hfresh2 : ∀ s ∈ fileLowNames rest,
        dictGet (idx ++ ups.map (fun r => (pyLower (oldName r), (gid, oldName r))))
          s = none := by
      intro s hs
      have hs0 : dictGet idx s = none := by
        apply hfresh
        rw [hln]
        exact List.mem_append_right _ hs
      rw [dictGet_append_right _ _ _ hs0]
      rw [dictGet_eq_none_iff]
      intro hmem
      rw [List.map_map] at hmem
      have hsg : s ∈ ups.map (fun r => pyLower (oldName r)) := by
        simpa using hmem
      exact (hnodup'.2.2 hsg hs).elim
    have hgfresh2 : ∀ g' ∈ rest,
        dictGet (dacc ++ [(gid, [] ++ ups.map (fun r => (oldName r, oldRec r)))])
          g'.1 = none := by
      intro g' hg'
      have hne : g'.1 ≠ gid := by
        intro he
        exact hgnodup.1 (he ▸ List.mem_map_of_mem Prod.fst hg')
      rw [dictGet_append_right _ _ _ (hgfresh g' (List.mem_cons_of_mem _ hg'))]
      simp [dictGet, Ne.symm hne]
    rw [hstep,
      dictSet_eq_append _ _ _ (hgfresh (gid, ups) (List.mem_cons_self _ _))]
    rw [ih _ _ hname2 hfresh2 hgfresh2 hgnodup.2 hnodup'.2.1]
    simp [hgidx, hgout, concatMap_cons, List.append_assoc]

theorem rebuildGroupIndex_eq (gid : String) (ups : List (String × OldInfo))
    (idx : List (String × (String × String)))
    (hfresh : ∀ r ∈ ups, dictGet idx (pyLower r.1) = none)
    (hnodup : (ups.map (fun r => pyLower r.1)).Nodup) :
    rebuildGroupIndex gid ups idx
      = idx ++ ups.map (fun r => (pyLower r.1, (gid, r.1))) := by
  induction ups generalizing idx with
  | nil => simp [rebuildGroupIndex]
  | cons r rest ih =>
    obtain ⟨k, info⟩ := r
    simp only [List.map_cons, List.nodup_cons] at hnodup
    have hfr : dictGet idx (pyLower k) = none :=
      hfresh (k, info) (List.mem_cons_self _ _)
    have hlowne : ∀ r' ∈ rest, pyLower r'.1 ≠ pyLower k := by
      intro r' hr' he
      exact hnodup.1 (he ▸ List.mem_map_of_mem (fun r0 => pyLower r0.1) hr')
    have hfresh2 : ∀ r' ∈ rest,
        dictGet (idx ++ [(pyLower k, (gid, k))]) (pyLower r'.1) = none := by
      intro r' hr'
      rw [dictGet_append_right _ _ _ (hfresh r' (List.mem_cons_of_mem _ hr'))]
      simp [dictGet, Ne.symm (hlowne r' hr')]
    have hstep : rebuildGroupIndex gid ((k, info) :: rest) idx
        = rebuildGroupIndex gid rest (dictSet idx (pyLower k) (gid, k)) := rfl
    rw [hstep, dictSet_eq_append _ _ _ hfr, ih _ hfresh2 hnodup.2]
    simp [List.append_assoc]

theorem rebuildIndex_eq (file : DiskFile)
    (idx : List (String × (String × String)))
    (hfresh : ∀ s ∈ fileLowKeys file, dictGet idx s = none)
    (hnodup : (fileLowKeys file).Nodup) :
    rebuildIndex file idx
      = idx ++ concatMap (fun g => g.2.map (fun r => (pyLower r.1, (g.1, r.1)))) file := by
  induction file generalizing idx with
  | nil => simp [rebuildIndex, concatMap]
  | cons g rest ih =>
    obtain ⟨gid, ups⟩ := g
    have hlk : fileLowKeys ((gid, ups) :: rest)
        = ups.map (fun r => pyLower r.1) ++ fileLowKeys rest := concatMap_cons _ _ _
    have hnodup' := hnodup
    rw [hlk, List.nodup_append] at hnodup'
    have h1 : ∀ r ∈ ups, dictGet idx (pyLower r.1) = none := by
      intro r hr
      apply hfresh
      rw [hlk]
      exact List.mem_append_left _ (List.mem_map_of_mem (fun r0 => pyLower r0.1) hr)
    have hstep : rebuildIndex ((gid, ups) :: rest) idx
        = rebuildIndex rest (rebuildGroupIndex gid ups idx) := rfl
    rw [hstep, rebuildGroupIndex_eq gid ups idx h1 hnodup'.1]
    have hfresh2 : ∀ s ∈ fileLowKeys rest,
        dictGet (idx ++ ups.map (fun r => (pyLower r.1, (gid, r.1)))) s = none := by
      intro s hs
      have hs0 : dictGet idx s = none := by
        apply hfresh
        rw [hlk]
        exact List.mem_append_right _ hs
      rw [dictGet_append_right _ _ _ hs0]
      rw [dictGet_eq_none_iff]
      intro hmem
      rw [List.map_map] at hmem
      have hsg : s ∈ ups.map (fun r => pyLower r.1) := by
        simpa using hmem
      exact (hnodup'.2.2 hsg hs).elim
    rw [ih _ hfresh2 hnodup'.2.1]
    simp [concatMap_cons, List.append_assoc]

/-- The migrated store's on-disk image, in the collision-free case:
each group keyed by the migrated names, records without up_name field. -/
theorem storeToFile_mig (file : DiskFile) :
    storeToFile ⟨file.map (fun g => (g.1, groupOut g)), concatMap groupIdx file⟩
      = file.map (fun g => (g.1, g.2.map (fun r =>
          (oldName r, (⟨none, r.2.last_check, r.2.last_vid⟩ : OldInfo))))) := by
  simp [storeToFile, List.map_map, Function.comp, groupOut, oldRec]

/-- C5: the claim's migration contract, under the side conditions the
code actually needs: every legacy record carries its up_name, the
lowered names are pairwise distinct file-wide (so the one round of
suffixing never fires and no two records fight over one key), no name
is purely numeric, and group keys are unique. Then Load() re-keys every
record to its creator name with no record lost (each record retrievable
under its name, total count preserved), and re-running Load() on the
persisted migrated file is a no-op. -/
theorem C5_migration (file : DiskFile)
    (hname : ∀ g ∈ file, ∀ r ∈ g.2, r.2.up_name.isSome)
    (hnodigit : ∀ g ∈ file, ∀ r ∈ g.2, strIsDigit (oldName r) = false)
    (hgnodup : (file.map Prod.fst).Nodup)
    (hnodup : (fileLowNames file).Nodup)
    (hold : is_old_format file = true) :
    (∀ g ∈ file, ∀ r ∈ g.2,
        (dictGet (load_and_migrate file).data g.1).bind
          (fun ups => dictGet ups (oldName r)) = some (oldRec r))
    ∧ storeCount (load_and_migrate file).data = fileCount file
    ∧ load_and_migrate (storeToFile (load_and_migrate file))
      = load_and_migrate file := by
  have hmig : load_and_migrate file
      = ⟨file.map (fun g => (g.1, groupOut g)), concatMap groupIdx file⟩ := by
    have h0 := migrateGroups_eq file [] [] hname (fun s _ => rfl) (fun g _ => rfl)
      hgnodup hnodup
    simpa [load_and_migrate, hold] using h0
  have hinner : ∀ g ∈ file, ∀ r ∈ g.2,
      dictGet (groupOut g) (oldName r) = some (oldRec r) := by
    intro g hg r hr
    have h1 : (g.2.map (fun r0 => pyLower (oldName r0))).Nodup :=
      concatMap_nodup_mem _ file hnodup g hg
    have h2 : ((g.2.map oldName).map pyLower).Nodup := by
      rwa [List.map_map]
    exact dictGet_map_key g.2 oldName oldRec r hr (List.Nodup.of_map pyLower h2)
  have hc1 : ∀ g ∈ file, ∀ r ∈ g.2,
      (dictGet (load_and_migrate file).data g.1).bind
        (fun ups => dictGet ups (oldName r)) = some (oldRec r) := by
    intro g hg r hr
    rw [hmig]
    have hget : dictGet (file.map (fun g0 => (g0.1, groupOut g0))) g.1
        = some (groupOut g) := dictGet_map_key file Prod.fst groupOut g hg hgnodup
    simp only [hget, Option.bind_some]
    exact hinner g hg r hr
  have hc2 : storeCount (load_and_migrate file).data = fileCount file := by
    rw [hmig]
    simp [storeCount, fileCount, groupOut, List.map_map, Function.comp_def]
  have hc3 : load_and_migrate (storeToFile (load_and_migrate file))
      = load_and_migrate file := by
    rw [hmig, storeToFile_mig]
    have hof : is_old_format (file.map (fun g => (g.1, g.2.map (fun r =>
        (oldName r, (⟨none, r.2.last_check, r.2.last_vid⟩ : OldInfo)))))) = false := by
      simp only [is_old_format, List.any_map, Function.comp_def, List.any_eq_false,
        Bool.not_eq_true]
      intro g hg r hr
      exact hnodigit g hg r hr
    have hdata : fileToData (file.map (fun g => (g.1, g.2.map (fun r =>
        (oldName r, (⟨none, r.2.last_check, r.2.last_vid⟩ : OldInfo))))))
        = file.map (fun g => (g.1, groupOut g)) := by
      simp [fileToData, List.map_map, Function.comp, groupOut, oldRec]
    have hkeys : fileLowKeys (file.map (fun g => (g.1, g.2.map (fun r =>
        (oldName r, (⟨none, r.2.last_check, r.2.last_vid⟩ : OldInfo))))))
        = fileLowNames file := by
      rw [fileLowKeys, concatMap_map]
      apply concatMap_congr
      intro g hg
      simp [List.map_map, Function.comp]
    have hidxeq : rebuildIndex (file.map (fun g => (g.1, g.2.map (fun r =>
        (oldName r, (⟨none, r.2.last_check, r.2.last_vid⟩ : OldInfo)))))) []
        = concatMap groupIdx file := by
      rw [rebuildIndex_eq _ [] (fun s _ => rfl) (by rw [hkeys]; exact hnodup)]
      rw [List.nil_append, concatMap_map]
      apply concatMap_congr
      intro g hg
      simp [groupIdx, List.map_map, Function.comp]
    simp [load_and_migrate, hof, hdata, hidxeq]
  exact ⟨hc1, hc2, hc3⟩

/-- Legacy store for the C5 counterexample: three records of one group
all named x, with uids whose last four digits collide. -/
def legacyC5 : DiskFile :=
  [("1", [("1234", ⟨some "x", 1, some "a"⟩),
          ("51234", ⟨some "x", 2, some "b"⟩),
          ("91234", ⟨some "x", 3, some "c"⟩)])]

/-- Counterexample to C5 as stated: migrating this legacy store LOSES a
record. The first record takes key x, the second is disambiguated to
x_1234, but the third is also renamed to x_1234 — the collision check
only tests the ORIGINAL name against the index, never the suffixed
key — and overwrites the second record: three records in, two out. -/
theorem C5_counterexample :
    is_old_format legacyC5 = true
    ∧ fileCount legacyC5 = 3
    ∧ storeCount (load_and_migrate legacyC5).data = 2 := by decide

/-- Collision-free legacy store for the C5 witness. -/
def legacyC5w : DiskFile :=
  [("1", [("100", ⟨some "alice", 1, some "a"⟩), ("200", ⟨some "bob", 2, none⟩)]),
   ("2", [("300", ⟨some "carol", 3, some "c"⟩)])]

/-- Witness for the amended C5 at a concrete legacy store. -/
theorem C5_witness :
    (dictGet (load_and_migrate legacyC5w).data "1").bind
        (fun ups => dictGet ups "alice") = some ⟨1, some "a"⟩
    ∧ storeCount (load_and_migrate legacyC5w).data = fileCount legacyC5w
    ∧ load_and_migrate (storeToFile (load_and_migrate legacyC5w))
      = load_and_migrate legacyC5w := by
  have h := C5_migration legacyC5w (by decide) (by decide) (by decide)
    (by decide) (by decide)
  exact ⟨h.1 ("1", [("100", ⟨some "alice", 1, some "a"⟩),
      ("200", ⟨some "bob", 2, none⟩)]) (by decide)
      ("100", ⟨some "alice", 1, some "a"⟩) (by decide),
    h.2.1, h.2.2⟩

end BZ
